import Mathlib

/-!
Verification development for the mcp-probe compliance validator.

Shallow embedding of the probe engine's core data model and operations:
the check harness (`suites/base.py`), the exit-code computation and runner
orchestration (`runner.py`), the report summary (`types.py`), the JSON-RPC
client loops (`client.py`), the SSE parser (`transport/sse.py`) and the
schema argument synthesizer (`schema_utils.py`).
-/

namespace McpProbe

/-- `Status` enum from `types.py`. -/
inductive Status where
  | PASS | FAIL | WARN | SKIP | INFO
deriving DecidableEq, Repr

/-- `Severity` enum from `types.py`. -/
inductive Severity where
  | CRITICAL | ERROR | WARNING | INFO
deriving DecidableEq, Repr

/-- `CheckResult` dataclass from `types.py` (durations modelled as `Nat`
milliseconds; the float representation is irrelevant to the claims). -/
structure CheckResult where
  check_id : String
  description : String
  status : Status
  severity : Severity
  duration_ms : Nat
  details : Option String := none
deriving DecidableEq, Repr

/-- `SuiteResult` dataclass from `types.py`. -/
structure SuiteResult where
  name : String
  checks : List CheckResult := []
deriving DecidableEq, Repr

/-! ## Check harness (`suites/base.py`) -/

/-- The metadata attached by the `@check` decorator in `suites/base.py`. -/
structure CheckMeta where
  check_id : String
  description : String
  severity : Severity
deriving DecidableEq, Repr

/-- How a check body terminates, abstracting the Python call
`result = await method()` inside `BaseSuite.run`:
it returns a `CheckResult` instance, returns any non-`CheckResult` value
(including `None`), raises `SkipCheck(reason)`, or raises any other
exception whose string form is `msg`. -/
inductive Outcome where
  | value (r : CheckResult)
  | noResult
  | skipped (reason : String)
  | failed (msg : String)
deriving DecidableEq, Repr

/-- One registered check as the harness sees it: its decorator metadata,
how its body terminates on this run, and its elapsed milliseconds. -/
structure Check where
  meta : CheckMeta
  outcome : Outcome
  elapsed : Nat
deriving DecidableEq, Repr

/-- The body of the per-check `try/except` in `BaseSuite.run`
(`suites/base.py` lines 56-93): adopt a returned `CheckResult` stamping
id/description/severity/duration, synthesize PASS on a bare return,
SKIP on `SkipCheck` (empty reason becomes `None` details), FAIL with the
exception's string form otherwise. -/
def runCheck (c : Check) : CheckResult :=
  match c.outcome with
  | .value r =>
      { r with
        check_id := c.meta.check_id
        description := c.meta.description
        severity := c.meta.severity
        duration_ms := c.elapsed }
  | .noResult =>
      { check_id := c.meta.check_id
        description := c.meta.description
        status := .PASS
        severity := c.meta.severity
        duration_ms := c.elapsed }
  | .skipped reason =>
      { check_id := c.meta.check_id
        description := c.meta.description
        status := .SKIP
        severity := c.meta.severity
        duration_ms := c.elapsed
        details := if reason = "" then none else some reason }
  | .failed msg =>
      { check_id := c.meta.check_id
        description := c.meta.description
        status := .FAIL
        severity := c.meta.severity
        duration_ms := c.elapsed
        details := some msg }

/-- The ordering used by `checks.sort(key=lambda c: c[0]["check_id"])` in
`BaseSuite._get_checks`: lexicographic comparison of the check ids. -/
def checkLE (a b : Check) : Prop := a.meta.check_id ≤ b.meta.check_id

instance : DecidableRel checkLE := fun a b =>
  inferInstanceAs (Decidable (a.meta.check_id ≤ b.meta.check_id))

instance : IsTotal Check checkLE :=
  ⟨fun a b => le_total a.meta.check_id b.meta.check_id⟩

instance : IsTrans Check checkLE :=
  ⟨fun _ _ _ h h' => le_trans h h'⟩

/-- `BaseSuite._get_checks`: the registered checks sorted by identifier
ascending; Python's `list.sort` is stable, modelled by the (stable)
insertion sort. -/
def get_checks (declared : List Check) : List Check :=
  declared.insertionSort checkLE

/-- The execution loop of `BaseSuite.run` over the already-sorted checks:
each check yields exactly one `CheckResult` (the `except` arms append a
result and fall through to the next iteration). -/
def runLoop : List Check → List CheckResult
  | [] => []
  | c :: rest => runCheck c :: runLoop rest

/-- `BaseSuite.run` (`suites/base.py` lines 49-94). -/
def suiteRun (name : String) (declared : List Check) : SuiteResult :=
  { name := name, checks := runLoop (get_checks declared) }

theorem runLoop_eq_map (cs : List Check) : runLoop cs = cs.map runCheck := by
  induction cs with
  | nil => rfl
  | cons c rest ih => simp [runLoop, ih]

theorem runCheck_check_id (c : Check) :
    (runCheck c).check_id = c.meta.check_id := by
  cases c with
  | mk meta outcome elapsed => cases outcome <;> rfl

/-- C1: one result per declared check, in ascending check-id order. -/
theorem suiteRun_results (name : String) (declared : List Check) :
    (suiteRun name declared).checks.length = declared.length ∧
    ((suiteRun name declared).checks.map CheckResult.check_id).Perm
      (declared.map fun c => c.meta.check_id) ∧
    ((suiteRun name declared).checks.map CheckResult.check_id).Sorted (· ≤ ·) := by
  have hmap : (suiteRun name declared).checks.map CheckResult.check_id
      = (get_checks declared).map fun c => c.meta.check_id := by
    simp [suiteRun, runLoop_eq_map, Function.comp, runCheck_check_id]
  refine ⟨?_, ?_, ?_⟩
  · simp [suiteRun, runLoop_eq_map, get_checks, List.length_insertionSort]
  · rw [hmap]
    exact (List.perm_insertionSort checkLE declared).map _
  · rw [hmap]
    have hsorted : (get_checks declared).Sorted checkLE :=
      List.sorted_insertionSort checkLE declared
    exact List.Pairwise.map _ (fun _ _ h => h) hsorted

/-- C2: the emitted result for each termination mode of a check body, and
the fact that the loop continues past a failing check. -/
theorem runCheck_modes (meta : CheckMeta) (elapsed : Nat) :
    (∀ r : CheckResult, runCheck ⟨meta, .value r, elapsed⟩ =
      { r with check_id := meta.check_id, description := meta.description,
               severity := meta.severity, duration_ms := elapsed }) ∧
    (runCheck ⟨meta, .noResult, elapsed⟩ =
      { check_id := meta.check_id, description := meta.description,
        status := .PASS, severity := meta.severity, duration_ms := elapsed,
        details := none }) ∧
    (∀ reason, runCheck ⟨meta, .skipped reason, elapsed⟩ =
      { check_id := meta.check_id, description := meta.description,
        status := .SKIP, severity := meta.severity, duration_ms := elapsed,
        details := if reason = "" then none else some reason }) ∧
    (∀ msg, runCheck ⟨meta, .failed msg, elapsed⟩ =
      { check_id := meta.check_id, description := meta.description,
        status := .FAIL, severity := meta.severity, duration_ms := elapsed,
        details := some msg }) ∧
    (∀ (c : Check) (rest : List Check),
      runLoop (c :: rest) = runCheck c :: runLoop rest) :=
  ⟨fun _ => rfl, rfl, fun _ => rfl, fun _ => rfl, fun _ _ => rfl⟩

/-! ## JSON values

Python dicts/lists/strings/numbers as passed around by the probe. Numbers
are modelled as integers (no claim depends on non-integral numerics). -/

inductive Json where
  | null
  | bool (b : Bool)
  | num (n : Int)
  | str (s : String)
  | arr (items : List Json)
  | obj (fields : List (String × Json))

/-- Python `d.get(k)` / `k in d` on a JSON object: first matching key. -/
def Json.lookup (j : Json) (key : String) : Option Json :=
  match j with
  | .obj fields => go fields
  | _ => none
where go : List (String × Json) → Option Json
  | [] => none
  | (k, v) :: rest => if k = key then some v else go rest

/-- Python `k in d`. -/
def Json.hasKey (j : Json) (key : String) : Bool :=
  (j.lookup key).isSome

/-! ## Report and exit code (`types.py`, `runner.py`) -/

/-- `ProbeReport` dataclass from `types.py`. -/
structure ProbeReport where
  probe_version : String
  spec_version : String
  target : String
  transport : String
  timestamp : String
  duration_ms : Nat
  server_info : Option Json
  capabilities : Json
  suites : List SuiteResult := []

/-- The body of the inner loop of `compute_exit_code` (`runner.py` lines
252-260); `some 1` models the early `return 1`. -/
def checkExit (strict : Bool) (c : CheckResult) : Option Nat :=
  let fromFail : Option Nat :=
    if c.status = .FAIL then
      if c.severity = .CRITICAL ∨ c.severity = .ERROR then some 1
      else if strict = true ∧ c.severity = .WARNING then some 1
      else none
    else none
  match fromFail with
  | some n => some n
  | none =>
      if strict = true ∧ c.status = .WARN then
        if c.severity = .CRITICAL ∨ c.severity = .ERROR ∨ c.severity = .WARNING
        then some 1 else none
      else none

/-- The inner `for check in suite.checks` loop of `compute_exit_code`. -/
def scanChecks (strict : Bool) : List CheckResult → Option Nat
  | [] => none
  | c :: rest =>
      match checkExit strict c with
      | some n => some n
      | none => scanChecks strict rest

/-- The outer `for suite in report.suites` loop of `compute_exit_code`. -/
def scanSuites (strict : Bool) : List SuiteResult → Option Nat
  | [] => none
  | s :: rest =>
      match scanChecks strict s.checks with
      | some n => some n
      | none => scanSuites strict rest

/-- `compute_exit_code` (`runner.py` lines 250-261). -/
def compute_exit_code (report : ProbeReport) (strict : Bool) : Nat :=
  (scanSuites strict report.suites).getD 0

/-- The exact condition under which a single check forces exit code 1. -/
def exitTrigger (strict : Bool) (c : CheckResult) : Prop :=
  (c.status = .FAIL ∧ (c.severity = .CRITICAL ∨ c.severity = .ERROR)) ∨
  (strict = true ∧ c.status = .FAIL ∧ c.severity = .WARNING) ∨
  (strict = true ∧ c.status = .WARN ∧
    (c.severity = .CRITICAL ∨ c.severity = .ERROR ∨ c.severity = .WARNING))

theorem checkExit_eq_some_iff (strict : Bool) (c : CheckResult) :
    checkExit strict c = some 1 ↔ exitTrigger strict c := by
  rcases c with ⟨id, desc, status, severity, dur, details⟩
  cases status <;> cases severity <;> cases strict <;>
    simp [checkExit, exitTrigger]

theorem checkExit_none_or_one (strict : Bool) (c : CheckResult) :
    checkExit strict c = none ∨ checkExit strict c = some 1 := by
  rcases c with ⟨id, desc, status, severity, dur, details⟩
  cases status <;> cases severity <;> cases strict <;>
    simp [checkExit]

theorem scanChecks_eq_some_iff (strict : Bool) (cs : List CheckResult) :
    scanChecks strict cs = some 1 ↔ ∃ c ∈ cs, exitTrigger strict c := by
  induction cs with
  | nil => simp [scanChecks]
  | cons c rest ih =>
      rcases checkExit_none_or_one strict c with h | h
      · simp [scanChecks, h, ih, (checkExit_eq_some_iff strict c).not.mp (by simp [h])]
      · simp [scanChecks, h, (checkExit_eq_some_iff strict c).mp h]

theorem scanChecks_none_or_one (strict : Bool) (cs : List CheckResult) :
    scanChecks strict cs = none ∨ scanChecks strict cs = some 1 := by
  induction cs with
  | nil => simp [scanChecks]
  | cons c rest ih =>
      rcases checkExit_none_or_one strict c with h | h
      · simpa [scanChecks, h] using ih
      · simp [scanChecks, h]

theorem scanSuites_eq_some_iff (strict : Bool) (ss : List SuiteResult) :
    scanSuites strict ss = some 1 ↔ ∃ s ∈ ss, ∃ c ∈ s.checks, exitTrigger strict c := by
  induction ss with
  | nil => simp [scanSuites]
  | cons s rest ih =>
      rcases scanChecks_none_or_one strict s.checks with h | h
      · have : ¬ ∃ c ∈ s.checks, exitTrigger strict c :=
          (scanChecks_eq_some_iff strict s.checks).not.mp (by simp [h])
        simp [scanSuites, h, ih, this]
      · simp [scanSuites, h, (scanChecks_eq_some_iff strict s.checks).mp h]

theorem scanSuites_none_or_one (strict : Bool) (ss : List SuiteResult) :
    scanSuites strict ss = none ∨ scanSuites strict ss = some 1 := by
  induction ss with
  | nil => simp [scanSuites]
  | cons s rest ih =>
      rcases scanChecks_none_or_one strict s.checks with h | h
      · simpa [scanSuites, h] using ih
      · simp [scanSuites, h]

/-- C3: the exit code is 1 exactly when some check triggers it (FAIL at
CRITICAL/ERROR; under strict, FAIL at WARNING or WARN at WARNING-or-above),
it is otherwise 0, and a FAIL at severity INFO never changes it (removing
such a check from anywhere in the report leaves the code unchanged). -/
theorem compute_exit_code_spec (report : ProbeReport) (strict : Bool) :
    (compute_exit_code report strict = 1 ↔
      ∃ s ∈ report.suites, ∃ c ∈ s.checks, exitTrigger strict c) ∧
    (compute_exit_code report strict = 0 ∨ compute_exit_code report strict = 1) ∧
    (∀ (pre post : List SuiteResult) (nm : String) (cs1 cs2 : List CheckResult)
       (c : CheckResult), c.status = .FAIL → c.severity = .INFO →
       report.suites = pre ++ ⟨nm, cs1 ++ c :: cs2⟩ :: post →
       compute_exit_code report strict =
         compute_exit_code { report with suites := pre ++ ⟨nm, cs1 ++ cs2⟩ :: post } strict) := by
  have hval : ∀ ss : List SuiteResult,
      (scanSuites strict ss).getD 0 = 0 ∨ (scanSuites strict ss).getD 0 = 1 := by
    intro ss
    rcases scanSuites_none_or_one strict ss with h | h <;> simp [h]
  refine ⟨?_, ?_, ?_⟩
  · constructor
    · intro h1
      rcases scanSuites_none_or_one strict report.suites with h | h
      · simp [compute_exit_code, h] at h1
      · exact (scanSuites_eq_some_iff strict report.suites).mp h
    · intro hex
      have := (scanSuites_eq_some_iff strict report.suites).mpr hex
      simp [compute_exit_code, this]
  · exact hval report.suites
  · intro pre post nm cs1 cs2 c hst hsev hsuites
    have hc : ¬ exitTrigger strict c := by
      rw [exitTrigger, hst, hsev]
      rcases strict with _ | _ <;> simp
    have hiff : ∀ ss1 ss2 : List SuiteResult,
        ((∃ s ∈ ss1, ∃ x ∈ s.checks, exitTrigger strict x) ↔
         (∃ s ∈ ss2, ∃ x ∈ s.checks, exitTrigger strict x)) →
        (scanSuites strict ss1).getD 0 = (scanSuites strict ss2).getD 0 := by
      intro ss1 ss2 hiff
      rcases hval ss1 with h1 | h1 <;> rcases hval ss2 with h2 | h2 <;>
        rw [h1, h2]
      · have e1 : (scanSuites strict ss1).getD 0 = 1 := by
          simp only [compute_exit_code] at *
          rcases scanSuites_none_or_one strict ss1 with h | h
          · exfalso
            have hx := (scanSuites_eq_some_iff strict ss2).mp ?_
            · exact ((scanSuites_eq_some_iff strict ss1).not.mp (by simp [h]))
                (hiff.mpr hx)
            · rcases scanSuites_none_or_one strict ss2 with h' | h'
              · simp [h'] at h2
              · exact h'
          · simp [h]
        omega
      · have hx := (scanSuites_eq_some_iff strict ss1).mp ?_
        · exfalso
          exact ((scanSuites_eq_some_iff strict ss2).not.mp
            (by rcases scanSuites_none_or_one strict ss2 with h' | h' <;> simp [h'] at h2 ⊢))
            (hiff.mp hx)
        · rcases scanSuites_none_or_one strict ss1 with h' | h'
          · simp [h'] at h1
          · exact h'
    simp only [compute_exit_code, hsuites]
    apply hiff
    constructor
    · rintro ⟨s, hs, x, hx, htr⟩
      rcases List.mem_append.mp hs with hs | hs
      · exact ⟨s, List.mem_append.mpr (Or.inl hs), x, hx, htr⟩
      rcases List.mem_cons.mp hs with hs | hs
      · subst hs
        simp only [SuiteResult.checks] at hx
        rcases List.mem_append.mp hx with hx | hx
        · exact ⟨⟨nm, cs1 ++ cs2⟩, by simp, x,
            by simp [List.mem_append.mpr (Or.inl hx)], htr⟩
        rcases List.mem_cons.mp hx with hx | hx
        · exact absurd htr (hx ▸ hc)
        · exact ⟨⟨nm, cs1 ++ cs2⟩, by simp, x,
            by simp [List.mem_append.mpr (Or.inr hx)], htr⟩
      · exact ⟨s, by simp [hs], x, hx, htr⟩
    · rintro ⟨s, hs, x, hx, htr⟩
      rcases List.mem_append.mp hs with hs | hs
      · exact ⟨s, List.mem_append.mpr (Or.inl hs), x, hx, htr⟩
      rcases List.mem_cons.mp hs with hs | hs
      · subst hs
        simp only [SuiteResult.checks] at hx
        rcases List.mem_append.mp hx with hx | hx
        · exact ⟨⟨nm, cs1 ++ c :: cs2⟩, by simp, x, by simp [hx], htr⟩
        · exact ⟨⟨nm, cs1 ++ c :: cs2⟩, by simp, x, by simp [hx], htr⟩
      · exact ⟨s, by simp [hs], x, hx, htr⟩

/-- A FAIL check at severity INFO, for exercising `compute_exit_code_spec`. -/
def demoFailInfo : CheckResult :=
  { check_id := "RPC-007", description := "error code summary",
    status := .FAIL, severity := .INFO, duration_ms := 3,
    details := some "boom" }

/-- A concrete report containing only the FAIL-at-INFO check. -/
def demoReport : ProbeReport :=
  { probe_version := "0.1.0", spec_version := "2025-11-25",
    target := "demo", transport := "stdio", timestamp := "t",
    duration_ms := 0, server_info := none, capabilities := .obj [],
    suites := [⟨"jsonrpc", [demoFailInfo]⟩] }

theorem compute_exit_code_spec_witness :
    compute_exit_code demoReport false =
      compute_exit_code
        { demoReport with suites := [] ++ SuiteResult.mk "jsonrpc" ([] ++ []) :: [] }
        false :=
  (compute_exit_code_spec demoReport false).2.2 [] [] "jsonrpc" [] []
    demoFailInfo rfl rfl rfl

/-! ## Report summary (`ProbeReport.summary`, `types.py` lines 81-104) -/

/-- The `counts` dictionary built by `ProbeReport.summary`. -/
structure Summary where
  total : Nat
  passed : Nat
  failed : Nat
  warnings : Nat
  skipped : Nat
  info : Nat
deriving DecidableEq, Repr

/-- The body of the inner loop of `ProbeReport.summary`: bump `total`,
then bump the counter matching the check's status. -/
def summaryStep (acc : Summary) (c : CheckResult) : Summary :=
  let acc := { acc with total := acc.total + 1 }
  match c.status with
  | .PASS => { acc with passed := acc.passed + 1 }
  | .FAIL => { acc with failed := acc.failed + 1 }
  | .WARN => { acc with warnings := acc.warnings + 1 }
  | .SKIP => { acc with skipped := acc.skipped + 1 }
  | .INFO => { acc with info := acc.info + 1 }

/-- `ProbeReport.summary` (`types.py` lines 81-104). -/
def summary (r : ProbeReport) : Summary :=
  r.suites.foldl (fun acc s => s.checks.foldl summaryStep acc)
    ⟨0, 0, 0, 0, 0, 0⟩

/-- All checks of a report, across its suites in order. -/
def allChecks (r : ProbeReport) : List CheckResult :=
  (r.suites.map SuiteResult.checks).flatten

theorem foldl_summaryStep (cs : List CheckResult) (acc : Summary) :
    cs.foldl summaryStep acc =
      ⟨acc.total + cs.length,
       acc.passed + cs.countP (fun c => c.status = .PASS),
       acc.failed + cs.countP (fun c => c.status = .FAIL),
       acc.warnings + cs.countP (fun c => c.status = .WARN),
       acc.skipped + cs.countP (fun c => c.status = .SKIP),
       acc.info + cs.countP (fun c => c.status = .INFO)⟩ := by
  induction cs generalizing acc with
  | nil => simp [List.countP, List.countP.go]
  | cons c rest ih =>
      rcases hs : c.status <;>
        simp [List.foldl_cons, ih, summaryStep, hs, List.countP_cons] <;>
        omega

/-- C9: the summary's counts partition the checks of the report. -/
theorem summary_partitions (r : ProbeReport) :
    (summary r).total = (allChecks r).length ∧
    (summary r).passed + (summary r).failed + (summary r).warnings +
      (summary r).skipped + (summary r).info = (summary r).total ∧
    (summary r).passed = (allChecks r).countP (fun c => c.status = .PASS) ∧
    (summary r).failed = (allChecks r).countP (fun c => c.status = .FAIL) ∧
    (summary r).warnings = (allChecks r).countP (fun c => c.status = .WARN) ∧
    (summary r).skipped = (allChecks r).countP (fun c => c.status = .SKIP) ∧
    (summary r).info = (allChecks r).countP (fun c => c.status = .INFO) := by
  have key : ∀ (ss : List SuiteResult) (acc : Summary),
      ss.foldl (fun acc s => s.checks.foldl summaryStep acc) acc =
        ((ss.map SuiteResult.checks).flatten).foldl summaryStep acc := by
    intro ss
    induction ss with
    | nil => intro acc; rfl
    | cons s rest ih =>
        intro acc
        simp only [List.foldl_cons, List.map_cons, List.flatten, List.foldl_append, ih]
  have hsum : summary r = (allChecks r).foldl summaryStep ⟨0, 0, 0, 0, 0, 0⟩ :=
    key r.suites _
  rw [hsum, foldl_summaryStep]
  refine ⟨by simp, ?_, by simp, by simp, by simp, by simp, by simp⟩
  simp only [Nat.zero_add]
  have := List.length_eq_countP_add_countP (l := allChecks r)
    (p := fun c => decide (c.status = .PASS))
  have h2 := List.length_eq_countP_add_countP (l := allChecks r)
    (p := fun c => decide (c.status = .FAIL))
  -- partition: every status is exactly one of the five
  have hcase : ∀ cs : List CheckResult,
      cs.countP (fun c => c.status = .PASS) +
      cs.countP (fun c => c.status = .FAIL) +
      cs.countP (fun c => c.status = .WARN) +
      cs.countP (fun c => c.status = .SKIP) +
      cs.countP (fun c => c.status = .INFO) = cs.length := by
    intro cs
    induction cs with
    | nil => simp
    | cons c rest ih =>
        rcases hs : c.status <;> simp [List.countP_cons, hs] <;> omega
  exact hcase (allChecks r)

/-! ## JSON-RPC client (`client.py`) -/

/-- `SPEC_VERSION` from `types.py`. -/
def SPEC_VERSION : String := "2025-11-25"

/-- `PROBE_VERSION` from `types.py`. -/
def PROBE_VERSION : String := "0.1.0"

/-- Python's `msg["id"] == expected_id` with `expected_id : int`: true for a
numeric id of equal value (Python `bool` compares equal to `0`/`1`, kept
faithfully); any other id value compares unequal. -/
def Json.idEquals (msg : Json) (expected : Int) : Bool :=
  match msg.lookup "id" with
  | some (.num n) => n == expected
  | some (.bool b) => (if b then (1 : Int) else 0) == expected
  | _ => false

/-- `MCPClient._receive_response` (`client.py` lines 36-44), reading from a
stream of incoming messages with the current notifications log threaded
through: a message without `id` is appended to the log, a message whose id
equals the expected one is returned, anything else is dropped.  `none`
models the transport raising (stream exhausted / timeout). -/
def receiveResponse (expectedId : Int) :
    List Json → List Json → Option (Json × List Json)
  | [], _ => none
  | msg :: rest, notifs =>
      if msg.hasKey "id" = false then
        receiveResponse expectedId rest (notifs ++ [msg])
      else if msg.idEquals expectedId then
        some (msg, notifs)
      else
        receiveResponse expectedId rest notifs

/-- C4: a returned response has the expected id (in particular it is never
an id-less notification), and the notifications log gains exactly the
id-less messages that arrived before it, in arrival order; messages with a
different id are dropped. -/
theorem receiveResponse_spec (n : Int) (stream notifs : List Json)
    (resp : Json) (notifs' : List Json)
    (h : receiveResponse n stream notifs = some (resp, notifs')) :
    resp.idEquals n = true ∧
    resp.hasKey "id" = true ∧
    notifs' = notifs ++
      (stream.takeWhile (fun m => !(m.idEquals n))).filter
        (fun m => !(m.hasKey "id")) := by
  induction stream generalizing notifs with
  | nil => simp [receiveResponse] at h
  | cons msg rest ih =>
      by_cases hid : msg.hasKey "id" = false
      · have hne : msg.idEquals n = false := by
          unfold Json.idEquals
          unfold Json.hasKey at hid
          rcases hk : msg.lookup "id" with _ | v
          · rfl
          · rw [hk] at hid; simp at hid
        rw [receiveResponse, if_pos hid] at h
        obtain ⟨h1, h2, h3⟩ := ih (notifs ++ [msg]) h
        refine ⟨h1, h2, ?_⟩
        rw [h3]
        simp [List.takeWhile_cons, hne, List.filter_cons, hid]
      · have hid' : msg.hasKey "id" = true := by
          revert hid; cases msg.hasKey "id" <;> simp
        rw [receiveResponse, if_neg (by simp [hid'])] at h
        by_cases hm : msg.idEquals n = true
        · rw [if_pos hm] at h
          have hpair := Option.some.inj h
          have hresp : msg = resp := congrArg Prod.fst hpair
          have hnot : notifs = notifs' := congrArg Prod.snd hpair
          subst hresp hnot
          refine ⟨hm, hid', ?_⟩
          simp [List.takeWhile_cons, hm]
        · have hm' : msg.idEquals n = false := by
            revert hm; cases msg.idEquals n <;> simp
          rw [if_neg (by simp [hm'])] at h
          obtain ⟨h1, h2, h3⟩ := ih notifs h
          refine ⟨h1, h2, ?_⟩
          rw [h3]
          simp [List.takeWhile_cons, hm', List.filter_cons, hid']

/-- A concrete run for `receiveResponse_spec`: a notification, then a
stale response with id 1, then the awaited response with id 2. -/
def demoNotif : Json :=
  .obj [("jsonrpc", .str "2.0"), ("method", .str "notifications/progress")]

/-- A stale response (id 1) that must be dropped. -/
def demoStale : Json := .obj [("jsonrpc", .str "2.0"), ("id", .num 1)]

/-- The awaited response (id 2). -/
def demoResp : Json :=
  .obj [("jsonrpc", .str "2.0"), ("id", .num 2), ("result", .obj [])]

theorem receiveResponse_spec_witness :
    demoResp.idEquals 2 = true ∧
    demoResp.hasKey "id" = true ∧
    [demoNotif] = [] ++
      (([demoNotif, demoStale, demoResp].takeWhile
          (fun m => !(m.idEquals 2))).filter (fun m => !(m.hasKey "id"))) :=
  receiveResponse_spec 2 [demoNotif, demoStale, demoResp] [] demoResp
    [demoNotif] rfl

/-- Python truthiness of `result.get("nextCursor")` as tested by
`if not cursor` in `MCPClient._paginated_list`: absent key, `None`,
`False`, `0`, the empty string, empty list and empty dict are all falsy. -/
def cursorFalsy : Option Json → Bool
  | none => true
  | some .null => true
  | some (.bool b) => !b
  | some (.num n) => n == 0
  | some (.str s) => s == ""
  | some (.arr xs) => xs.isEmpty
  | some (.obj fs) => fs.isEmpty

/-- `resp.get("result", {})` of a page response. -/
def pageResult (resp : Json) : Json := (resp.lookup "result").getD (.obj [])

/-- `result.get(key, [])` of a page response, as consumed by
`items.extend(...)`: an array yields its elements, an absent key yields
nothing; extending by a non-list value is modelled as a failure (`none`). -/
def pageItems (resp : Json) (key : String) : Option (List Json) :=
  match (pageResult resp).lookup key with
  | some (.arr xs) => some xs
  | none => some []
  | some _ => none

/-- `result.get("nextCursor")` of a page response. -/
def pageNextCursor (resp : Json) : Option Json :=
  (pageResult resp).lookup "nextCursor"

/-- The `while True` loop of `MCPClient._paginated_list` (`client.py`
lines 70-83), driven by the stream of page responses the server returns
to the successive requests.  The result also records, per request issued,
the `cursor` parameter it carried (`none` = parameter absent).  `none`
overall models the transport raising (responses exhausted) or a non-list
`result[key]`. -/
def pagRun (key : String) (cursor : Option Json) :
    List Json → Option (List Json × List (Option Json))
  | [] => none
  | resp :: rest =>
      match pageItems resp key with
      | none => none
      | some items =>
          let next := pageNextCursor resp
          if cursorFalsy next then
            some (items, [cursor])
          else
            match pagRun key next rest with
            | none => none
            | some (more, sents) => some (items ++ more, cursor :: sents)

/-- `MCPClient._paginated_list`: the first request carries no cursor. -/
def paginated_list (key : String) (responses : List Json) :
    Option (List Json × List (Option Json)) :=
  pagRun key none responses

theorem pagRun_spec (key : String) (cursor : Option Json)
    (responses : List Json) (k : Nat) (hk : k < responses.length)
    (hbefore : ∀ i (hi : i < k),
      cursorFalsy (pageNextCursor responses[i]) = false)
    (hfalsy : cursorFalsy (pageNextCursor responses[k]) = true)
    (hgood : ∀ i (hi : i ≤ k) (hi' : i < responses.length),
      (pageItems responses[i] key).isSome) :
    pagRun key cursor responses =
      some (((responses.take (k + 1)).map
               (fun r => (pageItems r key).getD [])).flatten,
            cursor :: (responses.take k).map pageNextCursor) := by
  induction responses generalizing cursor k with
  | nil => exact absurd hk (by simp)
  | cons resp rest ih =>
      obtain ⟨items, hitems⟩ :=
        Option.isSome_iff_exists.mp (hgood 0 (Nat.zero_le k) (by simp))
      rcases k with _ | j
      · simp only [List.getElem_cons_zero] at hfalsy
        simp only [List.getElem_cons_zero] at hitems
        rw [pagRun]
        simp [hitems, hfalsy]
      · have hnf : cursorFalsy (pageNextCursor resp) = false := by
          have := hbefore 0 (Nat.succ_pos j)
          simpa using this
        simp only [List.getElem_cons_zero] at hitems
        have hrec := ih (pageNextCursor resp) j
          (by simpa using Nat.lt_of_succ_lt_succ hk)
          (fun i hi => by
            have := hbefore (i + 1) (Nat.succ_lt_succ hi)
            simpa using this)
          (by
            have hjlt : j < rest.length := by
              simpa using Nat.lt_of_succ_lt_succ hk
            have : (resp :: rest)[j + 1] = rest[j] := by simp
            rw [this] at hfalsy
            exact hfalsy)
          (fun i hi hi' => by
            have := hgood (i + 1) (Nat.succ_le_succ hi)
              (by simpa using Nat.succ_lt_succ hi')
            simpa using this)
        rw [pagRun]
        simp [hitems, hnf, hrec]

/-- C5: `paginated_list` returns exactly the concatenation, in page order,
of each consumed page's `result[key]` entries; it consumes pages up to and
including the first whose `nextCursor` is absent or falsy; the first
request carries no cursor and every later request carries the previous
page's `nextCursor`. -/
theorem paginated_list_spec (key : String) (responses : List Json) (k : Nat)
    (hk : k < responses.length)
    (hbefore : ∀ i (hi : i < k),
      cursorFalsy (pageNextCursor responses[i]) = false)
    (hfalsy : cursorFalsy (pageNextCursor responses[k]) = true)
    (hgood : ∀ i (hi : i ≤ k) (hi' : i < responses.length),
      (pageItems responses[i] key).isSome) :
    paginated_list key responses =
      some (((responses.take (k + 1)).map
               (fun r => (pageItems r key).getD [])).flatten,
            none :: (responses.take k).map pageNextCursor) :=
  pagRun_spec key none responses k hk hbefore hfalsy hgood

/-- Page 1 of the concrete pagination run: two tools, cursor `"p2"`. -/
def demoPage1 : Json :=
  .obj [("jsonrpc", .str "2.0"), ("id", .num 1),
        ("result", .obj [("tools", .arr [.str "t1", .str "t2"]),
                         ("nextCursor", .str "p2")])]

/-- Page 2 of the concrete pagination run: one tool, no cursor. -/
def demoPage2 : Json :=
  .obj [("jsonrpc", .str "2.0"), ("id", .num 2),
        ("result", .obj [("tools", .arr [.str "t3"])])]

theorem paginated_list_spec_witness :
    paginated_list "tools" [demoPage1, demoPage2] =
      some ((([demoPage1, demoPage2].take 2).map
               (fun r => (pageItems r "tools").getD [])).flatten,
            none :: ([demoPage1, demoPage2].take 1).map pageNextCursor) :=
  paginated_list_spec "tools" [demoPage1, demoPage2] 1 (by decide)
    (fun i hi => by
      interval_cases i
      · rfl)
    rfl
    (fun i hi hi' => by
      interval_cases i
      · rfl
      · rfl)

/-- The mutable state of `MCPClient` (`client.py` lines 13-19). -/
structure ClientState where
  next_id : Int
  server_info : Option Json
  capabilities : Json
  received_notifications : List Json

/-- A freshly constructed client: counter 1, no server info, empty
capabilities mapping, empty notifications log. -/
def freshClient : ClientState :=
  { next_id := 1, server_info := none, capabilities := .obj [],
    received_notifications := [] }

/-- The request message built by `MCPClient._send_request` (`params` is
always present, defaulting to `{}`). -/
def buildRequest (msgId : Int) (method : String) (params : Option Json) : Json :=
  .obj [("jsonrpc", .str "2.0"), ("id", .num msgId),
        ("method", .str method), ("params", params.getD (.obj []))]

/-- The notification message built by `MCPClient._send_notification`
(`params` omitted when `None`). -/
def buildNotification (method : String) (params : Option Json) : Json :=
  .obj ([("jsonrpc", .str "2.0"), ("method", .str method)] ++
        (match params with
         | some p => [("params", p)]
         | none => []))

/-- `MCPClient._send_request` (`client.py` lines 21-34) against a stream
of incoming messages: allocate the id, send, await the matching response.
Returns the new state, the sent message and the response; `none` models
the receive raising (timeout / closed transport). -/
def send_request (st : ClientState) (method : String) (params : Option Json)
    (incoming : List Json) : Option (ClientState × Json × Json) :=
  let msgId := st.next_id
  let msg := buildRequest msgId method params
  match receiveResponse msgId incoming st.received_notifications with
  | none => none
  | some (resp, notifs) =>
      some ({ st with next_id := msgId + 1,
                      received_notifications := notifs }, msg, resp)

/-- The `params` of the `initialize` request (`client.py` lines 56-63). -/
def initParams : Json :=
  .obj [("protocolVersion", .str SPEC_VERSION),
        ("capabilities", .obj []),
        ("clientInfo", .obj [("name", .str "mcp-probe"),
                             ("version", .str PROBE_VERSION)])]

/-- `MCPClient.initialize` (`client.py` lines 55-68): send the initialize
request; if the response carries a `result`, record `serverInfo` and
`capabilities` from it; then send `notifications/initialized`.  Returns
the new state, the messages sent in order, and the raw response.  When
the `result` value is present but not an object, Python's
`result["result"].get(...)` raises `AttributeError`, so the notification
is never sent and no state is recorded: modelled by `none`. -/
def clientInit (st : ClientState) (incoming : List Json) :
    Option (ClientState × List Json × Json) :=
  match send_request st "initialize" (some initParams) incoming with
  | none => none
  | some (st1, req, resp) =>
      if resp.hasKey "result" then
        match (resp.lookup "result").getD .null with
        | .obj resFields =>
            let res := Json.obj resFields
            some ({ st1 with
                    server_info := res.lookup "serverInfo"
                    capabilities := (res.lookup "capabilities").getD (.obj []) },
                  [req, buildNotification "notifications/initialized" none],
                  resp)
        | _ => none
      else
        some (st1,
              [req, buildNotification "notifications/initialized" none],
              resp)

/-- An initialize response whose `result` is present but `null`. -/
def demoNullResult : Json :=
  .obj [("jsonrpc", .str "2.0"), ("id", .num 1), ("result", .null)]

/-- C10 counterexample: the initialize response is received (its id
matches the request), yet the call raises on
`result["result"].get("serverInfo")` — a `None` result value has no
`.get` — so `notifications/initialized` is never sent. -/
theorem clientInit_counterexample :
    receiveResponse freshClient.next_id [demoNullResult]
      freshClient.received_notifications = some (demoNullResult, []) ∧
    clientInit freshClient [demoNullResult] = none :=
  ⟨rfl, rfl⟩

/-- C10 (amended): whenever `initialize` completes — which it does for any
received response whose `result` field is absent or an object — the
`notifications/initialized` notification is sent, after the request; when
the response carries no `result` field, `server_info` and `capabilities`
are left unchanged (so still the empty mapping on a fresh client). -/
theorem clientInit_spec (st : ClientState) (incoming : List Json)
    (st' : ClientState) (sent : List Json) (resp : Json)
    (h : clientInit st incoming = some (st', sent, resp)) :
    sent = [buildRequest st.next_id "initialize" (some initParams),
            buildNotification "notifications/initialized" none] ∧
    (resp.hasKey "result" = false →
      st'.server_info = st.server_info ∧
      st'.capabilities = st.capabilities) := by
  unfold clientInit send_request at h
  rcases hr : receiveResponse st.next_id incoming st.received_notifications with
    _ | ⟨r, notifs⟩
  · simp only [hr] at h
    exact Option.noConfusion h
  · simp only [hr] at h
    by_cases hres : r.hasKey "result" = true
    · rw [if_pos hres] at h
      rcases hresv : (r.lookup "result").getD .null
        with _ | b | m | sv | av | resFields <;>
        simp only [hresv] at h <;> try exact Option.noConfusion h
      simp only [Option.some.injEq, Prod.mk.injEq] at h
      obtain ⟨hst, hsent, hresp⟩ := h
      subst hresp
      refine ⟨hsent.symm, fun hnores => ?_⟩
      rw [hres] at hnores
      exact absurd hnores (by simp)
    · have hres' : r.hasKey "result" = false := by
        revert hres
        cases r.hasKey "result" <;> simp
      rw [if_neg (by simp [hres'])] at h
      simp only [Option.some.injEq, Prod.mk.injEq] at h
      obtain ⟨hst, hsent, hresp⟩ := h
      subst hresp
      refine ⟨hsent.symm, fun _ => ?_⟩
      rw [← hst]
      exact ⟨rfl, rfl⟩

/-- A concrete error response to `initialize` (id 1, no `result`). -/
def demoErrorResp : Json :=
  .obj [("jsonrpc", .str "2.0"), ("id", .num 1),
        ("error", .obj [("code", .num (-32600)),
                        ("message", .str "bad request")])]

theorem clientInit_spec_witness :
    ([buildRequest 1 "initialize" (some initParams),
      buildNotification "notifications/initialized" none] =
     [buildRequest freshClient.next_id "initialize" (some initParams),
      buildNotification "notifications/initialized" none]) ∧
    (demoErrorResp.hasKey "result" = false →
      ((clientInit freshClient [demoErrorResp]).map
        (fun x => x.1.server_info) = some freshClient.server_info ∧
       (clientInit freshClient [demoErrorResp]).map
        (fun x => x.1.capabilities) = some freshClient.capabilities)) := by
  have happ := clientInit_spec freshClient [demoErrorResp]
    ({ next_id := 2, server_info := none, capabilities := .obj [],
       received_notifications := [] })
    [buildRequest 1 "initialize" (some initParams),
     buildNotification "notifications/initialized" none]
    demoErrorResp rfl
  refine ⟨happ.1 ▸ rfl, fun hres => ?_⟩
  have := happ.2 hres
  exact ⟨by rw [show (clientInit freshClient [demoErrorResp]) = _ from rfl];
            exact congrArg some this.1,
         by rw [show (clientInit freshClient [demoErrorResp]) = _ from rfl];
            exact congrArg some this.2⟩

/-! ## Runner orchestration (`runner.py` lines 87-158) -/

/-- The abstract inputs of one `Runner.run` invocation: the suite results
produced by the suites that actually execute, in their fixed order, plus
the report header data and the elapsed time stamped at the end.
`laterResults` are the results of the post-lifecycle suites (jsonrpc,
tools, ..., edge) that pass their gating, in execution order. -/
structure RunInputs where
  target : String
  transportName : String
  timestamp : String
  serverInfoAtStart : Option Json
  authResult : Option SuiteResult
  lifecycleResult : SuiteResult
  capsAfterLifecycle : Json
  serverInfoAfterLifecycle : Option Json
  laterResults : List SuiteResult
  elapsedMs : Nat

/-- The abort test of `Runner._run_lifecycle` (`runner.py` lines 156-158):
some check of the lifecycle result has id `INIT-001` and status FAIL. -/
def hasInitFailure (r : SuiteResult) : Bool :=
  r.checks.any (fun c => c.check_id == "INIT-001" && c.status == Status.FAIL)

/-- The recognized capability flags recorded on the report
(`runner.py` lines 105-110). -/
def capsFlags (caps : Json) : Json :=
  .obj [("tools", .bool (caps.hasKey "tools")),
        ("resources", .bool (caps.hasKey "resources")),
        ("prompts", .bool (caps.hasKey "prompts")),
        ("tasks", .bool (caps.hasKey "tasks"))]

/-- The report constructed at the top of `Runner.run`
(`runner.py` lines 89-99). -/
def initialReport (inp : RunInputs) : ProbeReport :=
  { probe_version := PROBE_VERSION
    spec_version := SPEC_VERSION
    target := inp.target
    transport := inp.transportName
    timestamp := inp.timestamp
    duration_ms := 0
    server_info := inp.serverInfoAtStart
    capabilities := .obj []
    suites := [] }

/-- `Runner._run_lifecycle` as a report transition: append the lifecycle
suite result, then raise `AbortRunError` (the `Except.error`, carrying the
report as mutated so far) if INIT-001 failed. -/
def runLifecycleStep (lr : SuiteResult) (rep : ProbeReport) :
    Except ProbeReport ProbeReport :=
  let rep := { rep with suites := rep.suites ++ [lr] }
  if hasInitFailure lr then .error rep else .ok rep

/-- The `try` body of `Runner.run` (`runner.py` lines 101-125): auth suite
(when it runs), lifecycle with its abort test, the capability flags and
server-info update, then every remaining gated-on suite in order. -/
def tryBody (inp : RunInputs) (rep : ProbeReport) :
    Except ProbeReport ProbeReport := do
  let rep := match inp.authResult with
    | some ar => { rep with suites := rep.suites ++ [ar] }
    | none => rep
  let rep ← runLifecycleStep inp.lifecycleResult rep
  let rep := { rep with
    capabilities := capsFlags inp.capsAfterLifecycle
    server_info := inp.serverInfoAfterLifecycle }
  pure (inp.laterResults.foldl
    (fun r s => { r with suites := r.suites ++ [s] }) rep)

/-- `Runner.run` (`runner.py` lines 87-131): run the try body, catch the
abort (keeping the partially built report), stamp `duration_ms`, return
the report. -/
def runnerRun (inp : RunInputs) : ProbeReport :=
  let rep :=
    match tryBody inp (initialReport inp) with
    | .ok r => r
    | .error r => r
  { rep with duration_ms := inp.elapsedMs }

theorem foldl_appendSuite (ss : List SuiteResult) (rep : ProbeReport) :
    (ss.foldl (fun r s => { r with suites := r.suites ++ [s] }) rep).suites =
      rep.suites ++ ss := by
  induction ss generalizing rep with
  | nil => simp
  | cons s rest ih => simp [List.foldl_cons, ih]

/-- C6: the returned report always carries the suites run so far ending
with the lifecycle result and has its duration stamped; later suites are
all present exactly when no lifecycle check with id `INIT-001` ended in
FAIL — a FAIL of any other check does not prevent them. -/
theorem runnerRun_spec (inp : RunInputs) :
    (runnerRun inp).duration_ms = inp.elapsedMs ∧
    (runnerRun inp).suites =
      inp.authResult.toList ++ [inp.lifecycleResult] ++
        (if hasInitFailure inp.lifecycleResult then [] else inp.laterResults) ∧
    (hasInitFailure inp.lifecycleResult = true ↔
      ∃ c ∈ inp.lifecycleResult.checks,
        c.check_id = "INIT-001" ∧ c.status = .FAIL) := by
  refine ⟨?_, ?_, ?_⟩
  · rfl
  · unfold runnerRun tryBody runLifecycleStep
    by_cases hfail : hasInitFailure inp.lifecycleResult
    · rcases har : inp.authResult with _ | ar <;>
        simp [hfail, har, initialReport, Except.bind]
    · have hfail' : hasInitFailure inp.lifecycleResult = false := by
        revert hfail; cases hasInitFailure inp.lifecycleResult <;> simp
      rcases har : inp.authResult with _ | ar <;>
        simp [hfail', har, initialReport, Except.bind, foldl_appendSuite]
  · unfold hasInitFailure
    simp [List.any_eq_true]

/-! ## SSE parser (`transport/sse.py` lines 18-53)

Strings are modelled as `List Char` so that Python's `str.strip`,
`str.startswith` and slicing are explicit list operations. -/

/-- A Python-string as a character list. -/
abbrev Str := List Char

/-- The whitespace recognized by Python's `str.strip()`: exactly the code
points for which `str.isspace()` holds — ASCII whitespace `\t \n \v \f \r`
and space, the separators U+001C-U+001F, NEL (U+0085), NBSP (U+00A0),
OGHAM SPACE MARK (U+1680), the Unicode spaces U+2000-U+200A, the line and
paragraph separators U+2028/U+2029, NARROW NBSP (U+202F), MMSP (U+205F)
and IDEOGRAPHIC SPACE (U+3000). -/
def isPyWs (c : Char) : Bool :=
  c = ' ' || c = '\t' || c = '\n' || c = '\r' || c = '\x0b' || c = '\x0c' ||
  (decide (0x1c ≤ c.toNat) && decide (c.toNat ≤ 0x1f)) ||
  c.toNat = 0x85 || c.toNat = 0xa0 || c.toNat = 0x1680 ||
  (decide (0x2000 ≤ c.toNat) && decide (c.toNat ≤ 0x200a)) ||
  c.toNat = 0x2028 || c.toNat = 0x2029 || c.toNat = 0x202f ||
  c.toNat = 0x205f || c.toNat = 0x3000

/-- Python `s.lstrip()`. -/
def lstripWs (l : Str) : Str := l.dropWhile isPyWs

/-- Python `s.strip()`: drop whitespace from both ends. -/
def pyStrip (l : Str) : Str := ((lstripWs l).reverse.dropWhile isPyWs).reverse

/-- The characters removed by `raw_line.rstrip("\r\n")`. -/
def isCRLF (c : Char) : Bool := c = '\r' || c = '\n'

/-- Python `raw_line.rstrip("\r\n")`. -/
def rstripCRLF (l : Str) : Str := (l.reverse.dropWhile isCRLF).reverse

/-- `"\n".join(buffer)`. -/
def joinNL : List Str → Str
  | [] => []
  | [s] => s
  | s :: rest => s ++ '\n' :: joinNL rest

/-- Splitting a string at `'\n'` (inverse of `joinNL`); used by the
serializer to lay out one `data:` line per segment. -/
def splitNL : Str → List Str
  | [] => [[]]
  | c :: rest =>
      if c = '\n' then [] :: splitNL rest
      else
        match splitNL rest with
        | [] => [[c]]
        | seg :: segs => (c :: seg) :: segs

/-- `SSEEvent` dataclass from `transport/sse.py`. -/
structure SSEEvent where
  event : Option Str
  data : Str
  id : Option Str
deriving DecidableEq, Repr

/-- The loop of `parse_sse_stream` with its three state variables
(`event_type`, `data_buffer`, `event_id`); the end-of-input case is the
final flush (`sse.py` lines 48-53). -/
def parseLoop : Option Str → List Str → Option Str → List Str → List SSEEvent
  | etype, buf, eid, [] =>
      if buf.isEmpty then [] else [⟨etype, joinNL buf, eid⟩]
  | etype, buf, eid, raw :: rest =>
      let line := rstripCRLF raw
      if [':'].isPrefixOf line then
        parseLoop etype buf eid rest
      else if line.isEmpty then
        (if buf.isEmpty then [] else [⟨etype, joinNL buf, eid⟩]) ++
          parseLoop none [] none rest
      else if ['d','a','t','a',':'].isPrefixOf line then
        parseLoop etype (buf ++ [pyStrip (line.drop 5)]) eid rest
      else if ['e','v','e','n','t',':'].isPrefixOf line then
        parseLoop (some (pyStrip (line.drop 6))) buf eid rest
      else if ['i','d',':'].isPrefixOf line then
        parseLoop etype buf (some (pyStrip (line.drop 3))) rest
      else
        parseLoop etype buf eid rest

/-- `parse_sse_stream` (`transport/sse.py` lines 18-53). -/
def parse_sse_stream (lines : List Str) : List SSEEvent :=
  parseLoop none [] none lines

/-- `data: ` as emitted by the serializer. -/
def dataPre : Str := ['d','a','t','a',':',' ']

/-- `event: ` as emitted by the serializer. -/
def eventPre : Str := ['e','v','e','n','t',':',' ']

/-- `id: ` as emitted by the serializer. -/
def idPre : Str := ['i','d',':',' ']

/-- Modelled from the spec: the EventSource serialization convention the
round-trip law quantifies over (serialization is not part of the source):
an optional `event: <type>` line, one `data: <segment>` line per
newline-separated segment of the data, an optional `id: <id>` line, then a
blank line. -/
def serializeEvent (e : SSEEvent) : List Str :=
  (match e.event with
   | some t => [eventPre ++ t]
   | none => []) ++
  (splitNL e.data).map (fun seg => dataPre ++ seg) ++
  (match e.id with
   | some i => [idPre ++ i]
   | none => []) ++
  [[]]

/-- Modelled from the spec: serialization of an event sequence. -/
def serializeSSE (es : List SSEEvent) : List Str :=
  (es.map serializeEvent).flatten

/-- C7 counterexample: a single event whose data carries a leading space
does not survive the round trip — the parser's `.strip()` on `data:`
lines removes it. -/
theorem parse_serialize_counterexample :
    parse_sse_stream (serializeSSE [⟨none, [' ', 'a'], none⟩]) ≠
      [⟨none, [' ', 'a'], none⟩] := by
  decide

theorem head_not_of_dropWhile_eq {p : Char → Bool} {c : Char} {cs : Str}
    (h : List.dropWhile p (c :: cs) = c :: cs) : p c = false := by
  rcases hp : p c
  · rfl
  · rw [List.dropWhile_cons, hp] at h
    simp only [if_true] at h
    have hle := (List.dropWhile_sublist (l := cs) (p := p)).length_le
    rw [h] at hle
    simp at hle

theorem strip_inv_parts {t : Str} (h : pyStrip t = t) :
    lstripWs t = t ∧ t.reverse.dropWhile isPyWs = t.reverse := by
  have hl1 : ((lstripWs t).reverse.dropWhile isPyWs).reverse = t := h
  have hlen1 : ((lstripWs t).reverse.dropWhile isPyWs).length = t.length := by
    have := congrArg List.length hl1
    simpa using this
  have hlen2 : ((lstripWs t).reverse.dropWhile isPyWs).length ≤
      (lstripWs t).length := by
    have := (List.dropWhile_sublist (l := (lstripWs t).reverse)
      (p := isPyWs)).length_le
    simpa using this
  have hlen3 : (lstripWs t).length ≤ t.length := by
    have := (List.dropWhile_sublist (l := t) (p := isPyWs)).length_le
    simpa [lstripWs] using this
  have heq : lstripWs t = t := by
    have hsuf : lstripWs t <:+ t := List.dropWhile_suffix _
    exact hsuf.eq_of_length (by omega)
  refine ⟨heq, ?_⟩
  rw [heq] at hl1
  have := congrArg List.reverse hl1
  simpa using this

/-- CRLF characters are Python whitespace. -/
theorem isCRLF_le_isPyWs {c : Char} (h : isPyWs c = false) : isCRLF c = false := by
  rcases hc : isCRLF c
  · rfl
  · exfalso
    simp only [isCRLF, Bool.or_eq_true, decide_eq_true_eq] at hc
    rcases hc with hc | hc <;> subst hc <;> exact absurd h (by decide)

theorem rstripCRLF_pre_append (pre : Str) (hpre : rstripCRLF pre = pre)
    {t : Str} (ht : pyStrip t = t) : rstripCRLF (pre ++ t) = pre ++ t := by
  rcases hrev : t.reverse with _ | ⟨d, tr⟩
  · have : t = [] := by simpa using congrArg List.reverse hrev
    subst this
    simpa using hpre
  · have h2 := (strip_inv_parts ht).2
    rw [hrev] at h2
    have hd : isPyWs d = false := head_not_of_dropWhile_eq h2
    have hdc : isCRLF d = false := isCRLF_le_isPyWs hd
    unfold rstripCRLF
    rw [List.reverse_append, hrev, List.cons_append, List.dropWhile_cons, hdc]
    simp only [Bool.false_eq_true, if_false]
    rw [← List.cons_append, ← hrev, ← List.reverse_append,
      List.reverse_reverse]

theorem pyStrip_space_cons {t : Str} (h : pyStrip t = t) :
    pyStrip (' ' :: t) = t := by
  obtain ⟨h1, h2⟩ := strip_inv_parts h
  unfold pyStrip lstripWs
  rw [List.dropWhile_cons]
  have : isPyWs ' ' = true := by decide
  rw [this]
  simp only [if_true]
  unfold lstripWs at h1
  rw [h1, h2, List.reverse_reverse]

theorem parse_step_data (etype : Option Str) (buf : List Str)
    (eid : Option Str) {seg : Str} (hseg : pyStrip seg = seg)
    (ls : List Str) :
    parseLoop etype buf eid ((dataPre ++ seg) :: ls) =
      parseLoop etype (buf ++ [seg]) eid ls := by
  have hline : rstripCRLF (dataPre ++ seg) = dataPre ++ seg :=
    rstripCRLF_pre_append dataPre (by decide) hseg
  have h1 : [':'].isPrefixOf (dataPre ++ seg) = false := rfl
  have h2 : (dataPre ++ seg).isEmpty = false := rfl
  have h3 : ['d','a','t','a',':'].isPrefixOf (dataPre ++ seg) = true := rfl
  have h4 : (dataPre ++ seg).drop 5 = ' ' :: seg := rfl
  simp only [parseLoop, hline, h1, h2, h3, h4, pyStrip_space_cons hseg,
    Bool.false_eq_true, if_false, if_true]

theorem parse_step_event (etype : Option Str) (buf : List Str)
    (eid : Option Str) {t : Str} (ht : pyStrip t = t) (ls : List Str) :
    parseLoop etype buf eid ((eventPre ++ t) :: ls) =
      parseLoop (some t) buf eid ls := by
  have hline : rstripCRLF (eventPre ++ t) = eventPre ++ t :=
    rstripCRLF_pre_append eventPre (by decide) ht
  have h1 : [':'].isPrefixOf (eventPre ++ t) = false := rfl
  have h2 : (eventPre ++ t).isEmpty = false := rfl
  have h3 : ['d','a','t','a',':'].isPrefixOf (eventPre ++ t) = false := rfl
  have h4 : ['e','v','e','n','t',':'].isPrefixOf (eventPre ++ t) = true := rfl
  have h5 : (eventPre ++ t).drop 6 = ' ' :: t := rfl
  simp only [parseLoop, hline, h1, h2, h3, h4, h5, pyStrip_space_cons ht,
    Bool.false_eq_true, if_false, if_true]

theorem parse_step_id (etype : Option Str) (buf : List Str)
    (eid : Option Str) {i : Str} (hi : pyStrip i = i) (ls : List Str) :
    parseLoop etype buf eid ((idPre ++ i) :: ls) =
      parseLoop etype buf (some i) ls := by
  have hline : rstripCRLF (idPre ++ i) = idPre ++ i :=
    rstripCRLF_pre_append idPre (by decide) hi
  have h1 : [':'].isPrefixOf (idPre ++ i) = false := rfl
  have h2 : (idPre ++ i).isEmpty = false := rfl
  have h3 : ['d','a','t','a',':'].isPrefixOf (idPre ++ i) = false := rfl
  have h4 : ['e','v','e','n','t',':'].isPrefixOf (idPre ++ i) = false := rfl
  have h5 : ['i','d',':'].isPrefixOf (idPre ++ i) = true := rfl
  have h6 : (idPre ++ i).drop 3 = ' ' :: i := rfl
  simp only [parseLoop, hline, h1, h2, h3, h4, h5, h6, pyStrip_space_cons hi,
    Bool.false_eq_true, if_false, if_true]

theorem parse_step_blank (etype : Option Str) {buf : List Str}
    (eid : Option Str) (hbuf : buf ≠ []) (ls : List Str) :
    parseLoop etype buf eid ([] :: ls) =
      ⟨etype, joinNL buf, eid⟩ :: parseLoop none [] none ls := by
  have hline : rstripCRLF ([] : Str) = [] := rfl
  have h1 : ([':'] : Str).isPrefixOf [] = false := rfl
  have h2 : ([] : Str).isEmpty = true := rfl
  have hb : buf.isEmpty = false := by
    rcases buf with _ | _
    · exact absurd rfl hbuf
    · rfl
  simp only [parseLoop, hline, h1, h2, hb, Bool.false_eq_true, if_false,
    if_true, List.singleton_append]

theorem parse_data_lines (segs : List Str)
    (hsegs : ∀ seg ∈ segs, pyStrip seg = seg) (etype : Option Str)
    (buf : List Str) (eid : Option Str) (ls : List Str) :
    parseLoop etype buf eid ((segs.map (dataPre ++ ·)) ++ ls) =
      parseLoop etype (buf ++ segs) eid ls := by
  induction segs generalizing buf with
  | nil => simp
  | cons seg rest ih =>
      rw [List.map_cons, List.cons_append,
        parse_step_data etype buf eid (hsegs seg (by simp)) _,
        ih (fun s hs => hsegs s (by simp [hs]))]
      simp

theorem splitNL_ne_nil (s : Str) : splitNL s ≠ [] := by
  rcases s with _ | ⟨c, rest⟩
  · simp [splitNL]
  · rw [splitNL]
    by_cases hc : c = '\n'
    · simp [hc]
    · simp only [hc, if_false]
      rcases splitNL rest with _ | _ <;> simp

theorem joinNL_splitNL (s : Str) : joinNL (splitNL s) = s := by
  induction s with
  | nil => rfl
  | cons c rest ih =>
      rw [splitNL]
      by_cases hc : c = '\n'
      · subst hc
        simp only [if_pos rfl]
        rcases hsp : splitNL rest with _ | ⟨seg, segs⟩
        · exact absurd hsp (splitNL_ne_nil rest)
        · rw [hsp] at ih
          simp [joinNL, ih]
      · simp only [hc, if_false]
        rcases hsp : splitNL rest with _ | ⟨seg, segs⟩
        · exact absurd hsp (splitNL_ne_nil rest)
        · rw [hsp] at ih
          rcases segs with _ | ⟨s2, more⟩
          · simp only [joinNL] at ih ⊢
            rw [ih]
          · simp only [joinNL] at ih ⊢
            rw [List.cons_append, ih]

/-- An event the serializer can represent losslessly for this parser:
every newline-separated data segment, the event type and the id are
invariant under Python `.strip()`. -/
def goodEvent (e : SSEEvent) : Prop :=
  (∀ seg ∈ splitNL e.data, pyStrip seg = seg) ∧
  (match e.event with | some t => pyStrip t = t | none => True) ∧
  (match e.id with | some i => pyStrip i = i | none => True)

theorem parse_serializeEvent {e : SSEEvent} (he : goodEvent e)
    (ls : List Str) :
    parseLoop none [] none (serializeEvent e ++ ls) =
      e :: parseLoop none [] none ls := by
  obtain ⟨ev, d, i⟩ := e
  obtain ⟨hd, hev, hid⟩ := he
  rcases ev with _ | t <;> rcases i with _ | idv <;>
    simp only at hev hid <;>
    simp only [serializeEvent, List.append_assoc, List.nil_append,
      List.append_nil, List.singleton_append, List.cons_append]
  · rw [parse_data_lines (splitNL d) hd none [] none ([] :: ls),
      List.nil_append,
      parse_step_blank none none (splitNL_ne_nil d) ls, joinNL_splitNL]
  · rw [parse_data_lines (splitNL d) hd none [] none _, List.nil_append,
      parse_step_id none (splitNL d) none hid _,
      parse_step_blank none (some idv) (splitNL_ne_nil d) ls,
      joinNL_splitNL]
  · rw [parse_step_event none [] none hev _,
      parse_data_lines (splitNL d) hd (some t) [] none ([] :: ls),
      List.nil_append,
      parse_step_blank (some t) none (splitNL_ne_nil d) ls, joinNL_splitNL]
  · rw [parse_step_event none [] none hev _,
      parse_data_lines (splitNL d) hd (some t) [] none _, List.nil_append,
      parse_step_id (some t) (splitNL d) none hid _,
      parse_step_blank (some t) (some idv) (splitNL_ne_nil d) ls,
      joinNL_splitNL]

/-- C7 (amended): serialization followed by parsing is the identity on
event sequences whose data segments, event type and id are `.strip()`
invariant; unconditionally the claim is false
(`parse_serialize_counterexample`). -/
theorem parse_serialize_roundtrip (es : List SSEEvent)
    (h : ∀ e ∈ es, goodEvent e) :
    parse_sse_stream (serializeSSE es) = es := by
  induction es with
  | nil => rfl
  | cons e rest ih =>
      unfold parse_sse_stream serializeSSE
      rw [List.map_cons, List.flatten_cons,
        parse_serializeEvent (h e (by simp)) _]
      exact congrArg (e :: ·) (ih (fun x hx => h x (by simp [hx])))

/-- A concrete two-event round trip. -/
def demoEvents : List SSEEvent :=
  [⟨some ['m','s','g'], ['h','i'], some ['1']⟩,
   ⟨none, ['a','\n','b'], none⟩]

theorem parse_serialize_roundtrip_witness :
    parse_sse_stream (serializeSSE demoEvents) = demoEvents :=
  parse_serialize_roundtrip demoEvents (by
    intro e he
    simp only [demoEvents, List.mem_cons, List.mem_singleton] at he
    rcases he with he | he | he
    · subst he; exact ⟨by decide, by decide, by decide⟩
    · subst he; exact ⟨by decide, by decide, by decide⟩
    · cases he)

/-! ## Schema argument synthesis (`schema_utils.py`)

The synthesizer's recursion descends into `items` and property schemas,
which are looked-up subterms; the embedding indexes every recursive
function by a fuel that the wrappers instantiate with `sizeOf` of the
schema, which always suffices (`sizeOf` of a looked-up subterm is
strictly smaller). -/

mutual

/-- Structural size of a JSON tree, used as recursion fuel. -/
def jsize : Json → Nat
  | .null => 1
  | .bool _ => 1
  | .num _ => 1
  | .str _ => 1
  | .arr items => 1 + jsizeList items
  | .obj fields => 1 + jsizeFields fields

/-- Structural size of a JSON array's elements. -/
def jsizeList : List Json → Nat
  | [] => 0
  | x :: xs => 1 + jsize x + jsizeList xs

/-- Structural size of a JSON object's fields. -/
def jsizeFields : List (String × Json) → Nat
  | [] => 0
  | (_, v) :: xs => 1 + jsize v + jsizeFields xs

end

/-- `_COMPLEX_KEYWORDS` from `schema_utils.py`. -/
def COMPLEX_KEYWORDS : List String := ["$ref", "anyOf", "oneOf", "allOf", "if"]

/-- `is_complex_schema` (`schema_utils.py` lines 6-7). -/
def is_complex_schema (s : Json) : Bool :=
  COMPLEX_KEYWORDS.any (fun k => s.hasKey k)

/-- Python `typ == "<name>"` where `typ = schema.get("type")`. -/
def typEq (t : Option Json) (name : String) : Bool :=
  match t with
  | some (.str x) => x == name
  | _ => false

/-- Python `name in set(schema.get("required", []))` membership of the
string `name` against one member of the required list. -/
def jsonStrEq (r : Json) (name : String) : Bool :=
  match r with
  | .str x => x == name
  | _ => false

/-- `set(schema.get("required", []))` as a list: absent key gives the
empty list; iterating a non-list value is modelled as a failure. -/
def reqListOf (s : Json) : Option (List Json) :=
  match s.lookup "required" with
  | none => some []
  | some (.arr l) => some l
  | some _ => none

/-- One step of the `_generate_object` loop (`schema_utils.py` lines
61-66), abstracted over the recursive value generator `gen`.  The
accumulator `none` models a raised exception, `some none` the early
`return None` (null sentinel), `some (some flds)` the fields built so
far; the two returned states are absorbing, modelling the early return. -/
def genPropStep (gen : Json → Option Json) (req : List Json)
    (acc : Option (Option (List (String × Json)))) (p : String × Json) :
    Option (Option (List (String × Json))) :=
  match acc with
  | some (some flds) =>
      if !(req.any (fun r => jsonStrEq r p.1)) then some (some flds)
      else match p.2 with
        | .obj _ =>
          if is_complex_schema p.2 then some none
          else match gen p.2 with
            | none => none
            | some v => some (some (flds ++ [(p.1, v)]))
        | _ => none
  | other => other

/-- `_generate_value` / `_generate_object` (`schema_utils.py` lines
23-67), fuel-indexed.  `none` models a raised exception (subscripting a
bad `enum`, comparing a non-numeric `minItems`, `.keys()` on a non-dict
schema, iterating a non-list `required` or non-dict `properties`);
`some .null` is Python `None`, the null sentinel.  The `properties`
iteration with its two early returns is a fold whose accumulator is
absorbing once a return has happened. -/
def generateValueF : Nat → Json → Option Json
  | 0, _ => none
  | n + 1, s =>
    match s with
    | .obj _ =>
      if is_complex_schema s then some .null
      else if s.hasKey "enum" then
        match s.lookup "enum" with
        | some (.arr (e :: _)) => some e
        | _ => none
      else if typEq (s.lookup "type") "string" then some (.str "test")
      else if typEq (s.lookup "type") "integer" then
        some ((s.lookup "minimum").getD (.num 1))
      else if typEq (s.lookup "type") "number" then
        some ((s.lookup "minimum").getD (.num 1))
      else if typEq (s.lookup "type") "boolean" then some (.bool true)
      else if typEq (s.lookup "type") "array" then
        match (s.lookup "minItems").getD (.num 0) with
        | .num m =>
          if decide (0 < m) && s.hasKey "items" then
            match s.lookup "items" with
            | some isch =>
                (generateValueF n isch).map
                  (fun item => .arr (List.replicate m.toNat item))
            | none => none
          else some (.arr [])
        | _ => none
      else if typEq (s.lookup "type") "object" || s.hasKey "properties" then
        match (s.lookup "properties").getD (.obj []) with
        | .obj props =>
          match reqListOf s with
          | none => none
          | some req =>
            match props.foldl
              (genPropStep (fun t => generateValueF n t) req)
              (some (some ([] : List (String × Json)))) with
            | none => none
            | some none => some .null
            | some (some flds) => some (.obj flds)
        | _ => none
      else some (.str "test")
    | _ => none

/-- `generate_valid_args` (`schema_utils.py` lines 10-13): `none` models a
raised exception, `some .null` the null sentinel returned for complex
schemas. -/
def generate_valid_args (s : Json) : Option Json :=
  match s with
  | .obj _ =>
      if is_complex_schema s then some .null
      else generateValueF (jsize s) s
  | _ => none

/-- Whether a JSON value matches a JSON-Schema `type` name. -/
def typeMatches (t : String) (v : Json) : Bool :=
  if t == "string" then (match v with | .str _ => true | _ => false)
  else if t == "integer" || t == "number" then
    (match v with | .num _ => true | _ => false)
  else if t == "boolean" then (match v with | .bool _ => true | _ => false)
  else if t == "array" then (match v with | .arr _ => true | _ => false)
  else if t == "object" then (match v with | .obj _ => true | _ => false)
  else if t == "null" then (match v with | .null => true | _ => false)
  else true

/-- Modelled from the spec: the JSON-Schema (Draft 2020-12) validation
relation the round-trip law quantifies over — the source treats the
validator as an external pluggable collaborator.  Covers the keyword
subset the synthesizer understands: `type`, `minimum` (numeric
instances), `minItems` and `items` (array instances), `required` and
`properties` (object instances).  Fuel-indexed on the schema depth. -/
def validateF : Nat → Json → Json → Bool
  | 0, _, _ => false
  | n + 1, s, v =>
    (match s.lookup "type" with
     | some (.str t) => typeMatches t v
     | _ => true) &&
    (match v with
     | .num x =>
        (match s.lookup "minimum" with
         | some (.num m) => decide (m ≤ x)
         | _ => true)
     | _ => true) &&
    (match v with
     | .arr xs =>
        (match s.lookup "minItems" with
         | some (.num m) => decide (m ≤ (xs.length : Int))
         | _ => true) &&
        (match s.lookup "items" with
         | some isch => xs.all (fun x => validateF n isch x)
         | none => true)
     | _ => true) &&
    (match v with
     | .obj flds =>
        (match s.lookup "required" with
         | some (.arr req) => req.all (fun r =>
             match r with
             | .str nm => ((Json.obj flds).lookup nm).isSome
             | _ => false)
         | _ => true) &&
        (match s.lookup "properties" with
         | some (.obj props) => props.all (fun p =>
             match (Json.obj flds).lookup p.1 with
             | some fv => validateF n p.2 fv
             | none => true)
         | _ => true)
     | _ => true)

/-- Modelled from the spec: the validation wrapper at full schema depth. -/
def validate (s v : Json) : Bool := validateF (jsize s) s v

/-- The well-behaved schema fragment on which synthesis provably
validates: non-complex object, no `enum`, no `null` type, numeric
`minimum` when numerically typed, `items` present (and itself
well-behaved) when `minItems > 0` on arrays, and — when the object branch
applies — a well-formed `properties`/`required` pair whose required names
are strings naming distinct declared properties with well-behaved
schemas. -/
def goodSchemaF : Nat → Json → Bool
  | 0, _ => false
  | n + 1, s =>
    match s with
    | .obj _ =>
      !is_complex_schema s &&
      !s.hasKey "enum" &&
      (match s.lookup "type" with
       | some (.str t) => !(t == "null")
       | _ => true) &&
      (if typEq (s.lookup "type") "integer" || typEq (s.lookup "type") "number" then
         (match s.lookup "minimum" with
          | none => true
          | some (.num _) => true
          | some _ => false)
       else true) &&
      (if typEq (s.lookup "type") "array" then
         (match (s.lookup "minItems").getD (.num 0) with
          | .num m => (decide (m ≤ 0) || s.hasKey "items")
          | _ => false) &&
         (match s.lookup "items" with
          | some isch => goodSchemaF n isch
          | none => true)
       else true) &&
      (if typEq (s.lookup "type") "object" || s.hasKey "properties" then
         (match (s.lookup "properties").getD (.obj []) with
          | .obj props =>
            (match reqListOf s with
             | none => false
             | some req =>
               req.all (fun r =>
                 match r with
                 | .str nm => props.any (fun p => p.1 == nm)
                 | _ => false) &&
               decide (props.map Prod.fst).Nodup &&
               props.all (fun p =>
                 !(req.any (fun r => jsonStrEq r p.1)) || goodSchemaF n p.2))
          | _ => false)
       else true)
    | _ => false

/-- The well-behaved fragment at full schema depth. -/
def goodSchema (s : Json) : Bool := goodSchemaF (jsize s) s

theorem jsize_pos (s : Json) : 1 ≤ jsize s := by
  cases s <;> simp [jsize]

theorem jsize_lookup_go {key : String} {fields : List (String × Json)}
    {v : Json} (h : Json.lookup.go key fields = some v) :
    jsize v ≤ jsizeFields fields := by
  induction fields with
  | nil => simp [Json.lookup.go] at h
  | cons p rest ih =>
      obtain ⟨k, w⟩ := p
      rw [Json.lookup.go] at h
      by_cases hk : k = key
      · rw [if_pos hk] at h
        cases h
        simp [jsizeFields]
        omega
      · rw [if_neg hk] at h
        have := ih h
        simp [jsizeFields]
        omega

theorem jsize_lookup {s : Json} {k : String} {v : Json}
    (h : s.lookup k = some v) : jsize v < jsize s := by
  cases s <;> simp [Json.lookup] at h
  case obj fields =>
    have := jsize_lookup_go h
    simp [jsize]
    omega

theorem jsize_mem_fields {fields : List (String × Json)}
    {p : String × Json} (h : p ∈ fields) : jsize p.2 ≤ jsizeFields fields := by
  induction fields with
  | nil => cases h
  | cons q rest ih =>
      rcases List.mem_cons.mp h with h | h
      · subst h
        obtain ⟨nm, w⟩ := p
        simp [jsizeFields]
        omega
      · have := ih h
        obtain ⟨nm, w⟩ := q
        simp [jsizeFields]
        omega

/-- Size bound for a property schema reached through `properties`. -/
theorem jsize_prop {s : Json} {props : List (String × Json)}
    {p : String × Json}
    (hp : (s.lookup "properties").getD (.obj []) = .obj props)
    (hmem : p ∈ props) : jsize p.2 < jsize s := by
  rcases hl : s.lookup "properties" with _ | j
  · rw [hl] at hp
    simp [Option.getD] at hp
    subst hp
    cases hmem
  · rw [hl] at hp
    simp [Option.getD] at hp
    subst hp
    have h1 := jsize_lookup hl
    have h2 := jsize_mem_fields hmem
    simp [jsize] at h1
    omega

theorem lookup_go_isSome_iff {key : String} {l : List (String × Json)} :
    (Json.lookup.go key l).isSome = true ↔ ∃ q ∈ l, q.1 = key := by
  induction l with
  | nil => simp [Json.lookup.go]
  | cons p rest ih =>
      obtain ⟨k, w⟩ := p
      rw [Json.lookup.go]
      by_cases hk : k = key
      · simp [hk]
      · simp only [if_neg hk, ih, List.mem_cons]
        constructor
        · rintro ⟨q, hq, hqk⟩
          exact ⟨q, Or.inr hq, hqk⟩
        · rintro ⟨q, hq | hq, hqk⟩
          · subst hq
            exact absurd hqk hk
          · exact ⟨q, hq, hqk⟩

theorem lookup_go_mem {key : String} {l : List (String × Json)} {v : Json}
    (h : Json.lookup.go key l = some v) : (key, v) ∈ l := by
  induction l with
  | nil => simp [Json.lookup.go] at h
  | cons p rest ih =>
      obtain ⟨k, w⟩ := p
      rw [Json.lookup.go] at h
      by_cases hk : k = key
      · rw [if_pos hk] at h
        cases h
        subst hk
        exact List.mem_cons_self _ _
      · rw [if_neg hk] at h
        exact List.mem_cons_of_mem _ (ih h)

theorem nodup_keys_eq {props : List (String × Json)}
    (hnd : (props.map Prod.fst).Nodup) {p q : String × Json}
    (hp : p ∈ props) (hq : q ∈ props) (hk : p.1 = q.1) : p = q := by
  induction props with
  | nil => cases hp
  | cons r rest ih =>
      simp only [List.map_cons, List.nodup_cons] at hnd
      rcases List.mem_cons.mp hp with hp' | hp' <;>
        rcases List.mem_cons.mp hq with hq' | hq'
      · rw [hp', hq']
      · subst hp'
        exact absurd (hk ▸ (List.mem_map_of_mem Prod.fst hq'))
          (by simpa using hnd.1)
      · subst hq'
        exact absurd (hk ▸ (List.mem_map_of_mem Prod.fst hp'))
          (by simpa [hk.symm] using hnd.1)
      · exact ih hnd.2 hp' hq'

/-- A schema accepted by the fragment is a non-complex object. -/
theorem goodSchemaF_obj {n : Nat} {t : Json} (h : goodSchemaF n t = true) :
    (∃ tf, t = .obj tf) ∧ is_complex_schema t = false := by
  rcases n with _ | n
  · simp [goodSchemaF] at h
  · cases t <;> simp [goodSchemaF] at h ⊢
    exact h.1.1.1.1.1

theorem genProps_fold {req : List Json} (g : Json → Option Json)
    (P : (String × Json) → Json → Prop) :
    ∀ (props : List (String × Json)) (flds : List (String × Json)),
    (∀ p ∈ props, req.any (fun r => jsonStrEq r p.1) = true →
      is_complex_schema p.2 = false ∧ (∃ pf, p.2 = .obj pf) ∧
      ∃ v, g p.2 = some v ∧ P p v) →
    ∃ out,
      props.foldl (genPropStep g req) (some (some flds)) =
        some (some (flds ++ out)) ∧
      out.map Prod.fst =
        (props.filter (fun p => req.any (fun r => jsonStrEq r p.1))).map
          Prod.fst ∧
      ∀ q ∈ out, ∃ p ∈ props, p.1 = q.1 ∧ P p q.2 := by
  intro props
  induction props with
  | nil =>
      intro flds _
      exact ⟨[], by simp, by simp, by simp⟩
  | cons p rest ih =>
      obtain ⟨nm, ps⟩ := p
      intro flds hgen
      rw [List.foldl_cons]
      by_cases hm : req.any (fun r => jsonStrEq r nm) = true
      · obtain ⟨hnc, ⟨pf, hpf⟩, v, hv, hP⟩ := hgen (nm, ps) (by simp) hm
        simp only at hnc hpf hv
        subst hpf
        have hstep : genPropStep g req (some (some flds)) (nm, .obj pf) =
            some (some (flds ++ [(nm, v)])) := by
          simp [genPropStep, hm, hnc, hv]
        rw [hstep]
        obtain ⟨out, hout, hnames, hval⟩ := ih (flds ++ [(nm, v)])
          (fun q hq hqm => hgen q (by simp [hq]) hqm)
        refine ⟨(nm, v) :: out, ?_, ?_, ?_⟩
        · rw [hout]
          simp
        · simp [List.filter_cons, hm, hnames]
        · intro q hq
          rcases List.mem_cons.mp hq with hq' | hq'
          · subst hq'
            exact ⟨(nm, .obj pf), by simp, rfl, hP⟩
          · obtain ⟨p', hp', hpk, hPp⟩ := hval q hq'
            exact ⟨p', by simp [hp'], hpk, hPp⟩
      · have hm' : req.any (fun r => jsonStrEq r nm) = false := by
          revert hm
          cases req.any (fun r => jsonStrEq r nm) <;> simp
        have hstep : genPropStep g req (some (some flds)) (nm, ps) =
            some (some flds) := by
          simp [genPropStep, hm']
        rw [hstep]
        obtain ⟨out, hout, hnames, hval⟩ := ih flds
          (fun q hq hqm => hgen q (by simp [hq]) hqm)
        refine ⟨out, hout, ?_, ?_⟩
        · simp [List.filter_cons, hm', hnames]
        · intro q hq
          obtain ⟨p', hp', hpk, hPp⟩ := hval q hq
          exact ⟨p', by simp [hp'], hpk, hPp⟩

theorem genProps_fold_absorb (g : Json → Option Json) (req : List Json)
    {a : Option (Option (List (String × Json)))}
    (h : a = none ∨ a = some none) :
    ∀ props : List (String × Json), props.foldl (genPropStep g req) a = a := by
  intro props
  induction props with
  | nil => rfl
  | cons p rest ih =>
      rw [List.foldl_cons]
      have hstep : genPropStep g req a p = a := by
        rcases h with h | h <;> subst h <;> rfl
      rw [hstep, ih]

end McpProbe
namespace McpProbe

theorem genF_validF : ∀ (n : Nat) (s : Json), jsize s ≤ n →
    goodSchemaF n s = true →
    ∃ v, generateValueF n s = some v ∧ validateF n s v = true := by
  intro n
  induction n with
  | zero =>
      intro s hs _
      have := jsize_pos s
      omega
  | succ n ih =>
      intro s hs hgood
      obtain ⟨⟨fs, hfs⟩, hnc⟩ := goodSchemaF_obj hgood
      subst hfs
      simp only [goodSchemaF, Bool.and_eq_true, Bool.not_eq_true'] at hgood
      obtain ⟨⟨⟨⟨⟨h1, h2⟩, h3⟩, h4⟩, h5⟩, h6⟩ := hgood
      simp only [generateValueF, validateF]
      rw [if_neg (by simp [h1]), if_neg (by simp [h2])]
      by_cases hty1 : typEq ((Json.obj fs).lookup "type") "string" = true
      · rw [if_pos hty1]
        obtain ⟨t, hty⟩ : ∃ t, (Json.obj fs).lookup "type" = some (.str t) := by
          revert hty1
          unfold typEq
          rcases (Json.obj fs).lookup "type" with _ | j
          · simp
          · rcases j <;> simp
        have ht : t = "string" := by
          rw [hty] at hty1
          simpa [typEq] using hty1
        subst ht
        refine ⟨.str "test", rfl, ?_⟩
        rw [hty]
        simp [typeMatches]
      · rw [if_neg hty1]
        by_cases hty2 : typEq ((Json.obj fs).lookup "type") "integer" = true
        · rw [if_pos hty2]
          obtain ⟨t, hty⟩ : ∃ t, (Json.obj fs).lookup "type" = some (.str t) := by
            revert hty2
            unfold typEq
            rcases (Json.obj fs).lookup "type" with _ | j
            · simp
            · rcases j <;> simp
          have ht : t = "integer" := by
            rw [hty] at hty2
            simpa [typEq] using hty2
          subst ht
          rw [if_pos (by simp [hty2])] at h4
          rcases hmin : (Json.obj fs).lookup "minimum" with _ | j
          · refine ⟨.num 1, by simp [hmin], ?_⟩
            simp [typeMatches, hmin, hty]
          · rw [hmin] at h4
            rcases j with _ | b | m | st | ar | ob <;> simp at h4
            refine ⟨.num m, by simp [hmin], ?_⟩
            simp [typeMatches, hmin, hty]
        · rw [if_neg hty2]
          by_cases hty3 : typEq ((Json.obj fs).lookup "type") "number" = true
          · rw [if_pos hty3]
            obtain ⟨t, hty⟩ : ∃ t, (Json.obj fs).lookup "type" = some (.str t) := by
              revert hty3
              unfold typEq
              rcases (Json.obj fs).lookup "type" with _ | j
              · simp
              · rcases j <;> simp
            have ht : t = "number" := by
              rw [hty] at hty3
              simpa [typEq] using hty3
            subst ht
            rw [if_pos (by simp [hty3])] at h4
            rcases hmin : (Json.obj fs).lookup "minimum" with _ | j
            · refine ⟨.num 1, by simp [hmin], ?_⟩
              simp [typeMatches, hmin, hty]
            · rw [hmin] at h4
              rcases j with _ | b | m | st | ar | ob <;> simp at h4
              refine ⟨.num m, by simp [hmin], ?_⟩
              simp [typeMatches, hmin, hty]
          · rw [if_neg hty3]
            by_cases hty4 : typEq ((Json.obj fs).lookup "type") "boolean" = true
            · rw [if_pos hty4]
              obtain ⟨t, hty⟩ : ∃ t, (Json.obj fs).lookup "type" = some (.str t) := by
                revert hty4
                unfold typEq
                rcases (Json.obj fs).lookup "type" with _ | j
                · simp
                · rcases j <;> simp
              have ht : t = "boolean" := by
                rw [hty] at hty4
                simpa [typEq] using hty4
              subst ht
              refine ⟨.bool true, rfl, ?_⟩
              simp [typeMatches, hty]
            · rw [if_neg hty4]
              by_cases hty5 : typEq ((Json.obj fs).lookup "type") "array" = true
              · rw [if_pos hty5]
                obtain ⟨t, hty⟩ : ∃ t, (Json.obj fs).lookup "type" = some (.str t) := by
                  revert hty5
                  unfold typEq
                  rcases (Json.obj fs).lookup "type" with _ | j
                  · simp
                  · rcases j <;> simp
                have ht : t = "array" := by
                  rw [hty] at hty5
                  simpa [typEq] using hty5
                subst ht
                rw [if_pos hty5] at h5
                rw [Bool.and_eq_true] at h5
                obtain ⟨h5a, h5b⟩ := h5
                rcases hgd : ((Json.obj fs).lookup "minItems").getD (Json.num 0)
                  with _ | b | m | st | ar | ob <;> rw [hgd] at h5a <;>
                  simp only [hgd] <;> simp at h5a
                by_cases hc : (decide (0 < m) && (Json.obj fs).hasKey "items") = true
                · have hc' := hc
                  rw [Bool.and_eq_true] at hc'
                  obtain ⟨hmpos, hkey⟩ := hc'
                  have hmpos' : 0 < m := by simpa using hmpos
                  obtain ⟨isch, hitems⟩ :=
                    Option.isSome_iff_exists.mp hkey
                  rw [if_pos hc, hitems]
                  rw [hitems] at h5b
                  have hsz : jsize isch ≤ n := by
                    have := jsize_lookup hitems
                    omega
                  obtain ⟨item, hgen, hval⟩ := ih isch hsz h5b
                  refine ⟨.arr (List.replicate m.toNat item), by simp [hgen], ?_⟩
                  have hlm : (Json.obj fs).lookup "minItems" = some (.num m) := by
                    rcases hl : (Json.obj fs).lookup "minItems" with _ | jm
                    · rw [hl] at hgd
                      simp [Option.getD] at hgd
                      omega
                    · rw [hl] at hgd
                      simp [Option.getD] at hgd
                      rw [hgd]
                  simp [typeMatches, hty, hlm, hitems, List.all_eq_true,
                    List.mem_replicate, hval,
                    Int.toNat_of_nonneg (le_of_lt hmpos')]
                · rw [if_neg hc]
                  refine ⟨.arr [], rfl, ?_⟩
                  have hmle : ∀ jm, (Json.obj fs).lookup "minItems" = some jm →
                      jm = .num m ∧ m ≤ 0 := by
                    intro jm hl
                    rw [hl] at hgd
                    simp [Option.getD] at hgd
                    subst hgd
                    constructor
                    · rfl
                    · by_contra hml
                      have h0 : 0 < m := by omega
                      have hk : (Json.obj fs).hasKey "items" = true := by
                        rcases h5a with h5a | h5a
                        · omega
                        · exact h5a
                      simp [h0, hk] at hc
                  rcases hl : (Json.obj fs).lookup "minItems" with _ | jm
                  · rcases hli : (Json.obj fs).lookup "items" with _ | isch <;>
                      simp [typeMatches, hty, hl, hli]
                  · obtain ⟨hjm, hm0⟩ := hmle jm hl
                    subst hjm
                    rcases hli : (Json.obj fs).lookup "items" with _ | isch <;>
                      simp [typeMatches, hty, hl, hli, hm0]
              · rw [if_neg hty5]
                by_cases hty6 : (typEq ((Json.obj fs).lookup "type") "object" ||
                    (Json.obj fs).hasKey "properties") = true
                · rw [if_pos hty6]
                  rw [if_pos hty6] at h6
                  rcases hp : ((Json.obj fs).lookup "properties").getD (.obj [])
                    with _ | b | m | st | ar | props <;> rw [hp] at h6 <;>
                    simp only [hp] <;> try simp at h6
                  rcases hr : reqListOf (Json.obj fs) with _ | req <;>
                    simp only [hr] at h6 ⊢
                  · exact absurd h6 (by simp)
                  rw [Bool.and_eq_true, Bool.and_eq_true] at h6
                  obtain ⟨⟨hreqall, hnodup⟩, hpropsall⟩ := h6
                  have hgen : ∀ p ∈ props,
                      req.any (fun r => jsonStrEq r p.1) = true →
                      is_complex_schema p.2 = false ∧ (∃ pf, p.2 = .obj pf) ∧
                      ∃ v, (fun t => generateValueF n t) p.2 = some v ∧
                        validateF n p.2 v = true := by
                    intro p hpm hpreq
                    have hgp := (List.all_eq_true.mp hpropsall) p hpm
                    rw [hpreq] at hgp
                    simp only [Bool.not_true, Bool.false_or] at hgp
                    obtain ⟨⟨pf, hpf⟩, hpnc⟩ := goodSchemaF_obj hgp
                    have hsz : jsize p.2 ≤ n := by
                      have := jsize_prop hp hpm
                      omega
                    obtain ⟨v, hv, hval⟩ := ih p.2 hsz hgp
                    exact ⟨hpnc, ⟨pf, hpf⟩, v, hv, hval⟩
                  obtain ⟨out, hout, hnames, hval⟩ :=
                    genProps_fold (fun t => generateValueF n t)
                      (fun p v => validateF n p.2 v = true) props [] hgen
                  simp only [hout, List.nil_append]
                  refine ⟨.obj out, rfl, ?_⟩
                  have hnodup' : (props.map Prod.fst).Nodup := of_decide_eq_true hnodup
                  have honames : ∀ nm : String,
                      (∃ q ∈ out, q.1 = nm) ↔
                      (∃ p ∈ props, p.1 = nm ∧
                        req.any (fun r => jsonStrEq r nm) = true) := by
                    intro nm
                    constructor
                    · rintro ⟨q, hq, hqnm⟩
                      have : q.1 ∈ out.map Prod.fst := List.mem_map_of_mem _ hq
                      rw [hnames] at this
                      obtain ⟨p, hpmem, hpnm⟩ := List.mem_map.mp this
                      have hpf := List.mem_filter.mp hpmem
                      refine ⟨p, hpf.1, hpnm.trans hqnm, ?_⟩
                      have := hpf.2
                      rw [hpnm, hqnm] at this
                      exact this
                    · rintro ⟨p, hpmem, hpnm, hpreq⟩
                      have hmem : p.1 ∈ (props.filter
                          (fun p => req.any (fun r => jsonStrEq r p.1))).map
                            Prod.fst :=
                        List.mem_map_of_mem _
                          (List.mem_filter.mpr ⟨hpmem, by rw [hpnm]; exact hpreq⟩)
                      rw [← hnames] at hmem
                      obtain ⟨q, hq, hqnm⟩ := List.mem_map.mp hmem
                      exact ⟨q, hq, hqnm.trans hpnm⟩
                  -- the validator clauses
                  have hclause1 : (match (Json.obj fs).lookup "type" with
                      | some (.str t) => typeMatches t (.obj out)
                      | _ => true) = true := by
                    rcases hlt : (Json.obj fs).lookup "type" with _ | j
                    · rfl
                    · rcases j with _ | b | m | st | ar | ob <;> try rfl
                      rw [hlt] at hty1 hty2 hty3 hty4 hty5 h3
                      simp only [typEq] at hty1 hty2 hty3 hty4 hty5
                      simp only [Bool.not_eq_true'] at h3
                      rcases hob : (st == "object")
                      · simp only [typeMatches]
                        simp only [beq_iff_eq] at hty1 hty2 hty3 hty4 hty5 hob h3 ⊢
                        rw [if_neg (by simpa using hty1),
                          if_neg (by simp; exact ⟨by simpa using hty2, by simpa using hty3⟩),
                          if_neg (by simpa using hty4),
                          if_neg (by simpa using hty5),
                          if_neg (by simpa using hob),
                          if_neg (by simpa using h3)]
                      · simp only [beq_iff_eq] at hob
                        subst hob
                        rfl
                  have hclause4a : (match (Json.obj fs).lookup "required" with
                      | some (.arr req') => req'.all (fun r =>
                          match r with
                          | .str nm => ((Json.obj out).lookup nm).isSome
                          | _ => false)
                      | _ => true) = true := by
                    rcases hlr : (Json.obj fs).lookup "required" with _ | j
                    · rfl
                    · unfold reqListOf at hr
                      rw [hlr] at hr
                      rcases j with _ | b | m | st | ar | ob <;> simp at hr
                      subst hr
                      rw [List.all_eq_true]
                      intro r hrm
                      have := (List.all_eq_true.mp hreqall) r hrm
                      rcases r with _ | b | m | nm | a2 | o2 <;> simp at this
                      obtain ⟨pv, hpmem⟩ := this
                      have hex : ∃ q ∈ out, q.1 = nm := by
                        rw [honames nm]
                        refine ⟨(nm, pv), hpmem, rfl, ?_⟩
                        rw [List.any_eq_true]
                        refine ⟨.str nm, hrm, ?_⟩
                        simp [jsonStrEq]
                      have hse := lookup_go_isSome_iff.mpr hex
                      simpa [Json.lookup] using hse
                  have hclause4b : (match (Json.obj fs).lookup "properties" with
                      | some (.obj props') => props'.all (fun p =>
                          match (Json.obj out).lookup p.1 with
                          | some fv => validateF n p.2 fv
                          | none => true)
                      | _ => true) = true := by
                    rcases hlp : (Json.obj fs).lookup "properties" with _ | j
                    · rfl
                    · rw [hlp] at hp
                      simp only [Option.getD] at hp
                      subst hp
                      rw [List.all_eq_true]
                      intro p hpmem
                      rcases hlo : (Json.obj out).lookup p.1 with _ | fv
                      · simp
                      · simp only
                        have hmem : (p.1, fv) ∈ out := by
                          have : Json.lookup.go p.1 out = some fv := by
                            simpa [Json.lookup] using hlo
                          exact lookup_go_mem this
                        obtain ⟨p', hp'mem, hp'nm, hp'val⟩ := hval (p.1, fv) hmem
                        have : p' = p := nodup_keys_eq hnodup' hp'mem hpmem hp'nm
                        rw [← this]
                        exact hp'val
                  simp only [validateF, Bool.and_eq_true]
                  exact ⟨⟨⟨hclause1, by simp⟩, by simp⟩, hclause4a, hclause4b⟩
                · rw [if_neg hty6]
                  refine ⟨.str "test", rfl, ?_⟩
                  have hobj : typEq ((Json.obj fs).lookup "type") "object" = false := by
                    revert hty6
                    cases htq : typEq ((Json.obj fs).lookup "type") "object" <;> simp
                  rcases hlt : (Json.obj fs).lookup "type" with _ | j
                  · simp [hlt]
                  · rcases j with _ | b | m | st | ar | ob <;> simp [hlt, typeMatches]
                    rw [hlt] at hty1 hty2 hty3 hty4 hty5 h3 hobj
                    simp only [typEq, beq_iff_eq] at hty1 hty2 hty3 hty4 hty5 hobj
                    simp only [Bool.not_eq_true', beq_eq_false_iff_ne] at h3
                    exact Or.inr ⟨⟨hty2, hty3⟩, hty4, hty5, by simpa using hobj, h3⟩

end McpProbe
namespace McpProbe

theorem genProps_fold_skip (g : Json → Option Json) (req : List Json)
    (flds : List (String × Json)) :
    ∀ pre : List (String × Json),
    (∀ p ∈ pre, req.any (fun r => jsonStrEq r p.1) = false) →
    pre.foldl (genPropStep g req) (some (some flds)) = some (some flds) := by
  intro pre
  induction pre with
  | nil => intro _; rfl
  | cons p rest ih =>
      intro h
      rw [List.foldl_cons]
      have hstep : genPropStep g req (some (some flds)) p = some (some flds) := by
        simp [genPropStep, h p (by simp)]
      rw [hstep]
      exact ih (fun q hq => h q (by simp [hq]))

/-- C8 (amended): synthesis validates on the well-behaved fragment; the
null sentinel is produced for complex schemas, and for object schemas
whose first required property is complex. -/
theorem generate_valid_args_spec (s : Json) :
    (∀ fs', s = .obj fs' → is_complex_schema s = true →
      generate_valid_args s = some .null) ∧
    (goodSchema s = true →
      ∃ v, generate_valid_args s = some v ∧ validate s v = true) ∧
    (∀ props pre nm ps post req,
      s.lookup "type" = some (.str "object") →
      is_complex_schema s = false →
      s.hasKey "enum" = false →
      (s.lookup "properties").getD (.obj []) = .obj props →
      reqListOf s = some req →
      props = pre ++ (nm, ps) :: post →
      (∀ p ∈ pre, req.any (fun r => jsonStrEq r p.1) = false) →
      req.any (fun r => jsonStrEq r nm) = true →
      (∃ pf, ps = .obj pf) →
      is_complex_schema ps = true →
      generate_valid_args s = some .null) := by
  refine ⟨?_, ?_, ?_⟩
  · intro fs' hfs hcx
    subst hfs
    unfold generate_valid_args
    rw [if_pos hcx]
  · intro hgood
    unfold goodSchema at hgood
    obtain ⟨⟨fs', hfs⟩, hnc⟩ := goodSchemaF_obj hgood
    subst hfs
    unfold generate_valid_args validate
    rw [if_neg (by simp [hnc])]
    exact genF_validF (jsize (Json.obj fs')) (Json.obj fs') le_rfl hgood
  · intro props pre nm ps post req htype hnc henum hp hr hsplit hpre hreq
      hpsobj hpscx
    obtain ⟨fs', hfs⟩ : ∃ fs', s = .obj fs' := by
      rcases s <;> simp [Json.lookup] at htype ⊢
    subst hfs
    unfold generate_valid_args
    rw [if_neg (by simp [hnc])]
    obtain ⟨k, hk⟩ : ∃ k, jsize (Json.obj fs') = k + 1 := by
      have := jsize_pos (Json.obj fs')
      exact ⟨jsize (Json.obj fs') - 1, by omega⟩
    rw [hk]
    simp only [generateValueF]
    rw [if_neg (by simp [hnc]), if_neg (by simp [henum]),
      if_neg (by simp [htype, typEq]), if_neg (by simp [htype, typEq]),
      if_neg (by simp [htype, typEq]), if_neg (by simp [htype, typEq]),
      if_neg (by simp [htype, typEq]),
      if_pos (by simp [htype, typEq])]
    simp only [hp, hr]
    rw [hsplit, List.foldl_append, genProps_fold_skip _ _ _ pre hpre,
      List.foldl_cons]
    obtain ⟨pf, hpf⟩ := hpsobj
    subst hpf
    have hstep : genPropStep (fun t => generateValueF k t) req
        (some (some [])) (nm, .obj pf) = some none := by
      simp [genPropStep, hreq, hpscx]
    rw [hstep, genProps_fold_absorb _ _ (Or.inr rfl)]

/-- The counterexample schema: non-complex object, declares a required
property `a`, but `a` is absent from `properties`. -/
def Scex : Json :=
  .obj [("type", .str "object"), ("required", .arr [.str "a"]),
        ("properties", .obj [])]

/-- C8 counterexample: the synthesized arguments for `Scex` are the empty
object, which fails validation because required property `a` is missing. -/
theorem generate_valid_args_counterexample :
    is_complex_schema Scex = false ∧
    Scex.lookup "required" = some (.arr [.str "a"]) ∧
    generate_valid_args Scex = some (.obj []) ∧
    validate Scex (.obj []) = false :=
  ⟨rfl, rfl, rfl, rfl⟩

/-- A concrete well-behaved object schema with one required and one
optional property. -/
def SdemoGood : Json :=
  .obj [("type", .str "object"),
        ("required", .arr [.str "name"]),
        ("properties", .obj
          [("name", .obj [("type", .str "string")]),
           ("age", .obj [("type", .str "integer")])])]

theorem generate_valid_args_spec_witness :
    goodSchema SdemoGood = true ∧
    (∃ v, generate_valid_args SdemoGood = some v ∧
      validate SdemoGood v = true) :=
  ⟨rfl, (generate_valid_args_spec SdemoGood).2.1 rfl⟩

end McpProbe
